import Mathlib

/-!
Shallow embedding of `src/name_gen.py` (module `name_gen`): a procedural
generator of constructed-language names.  Python strings are modelled as
`List Char`, the values of `random.random()` as exact rationals `num/den`
over `Nat` (every float is such a rational), `random.randrange k` as a raw
stream value reduced modulo `k`, and the unbounded `while True:` retry
loops with explicit fuel.  Runtime exceptions (`KeyError`, `IndexError`,
`AttributeError`) are explicit error results.
-/

namespace NameGen

/-- Python strings are modelled as lists of characters. -/
abbrev Str := List Char

/-- Runtime failures of the Python source, plus fuel exhaustion for the
unbounded retry loops. -/
inductive GenErr where
  | keyError (c : Char)
  | indexError
  | attrError
  | fuelOut
deriving DecidableEq, Repr

/-- Result of a fallible operation. -/
inductive Res (α : Type) where
  | ok (a : α)
  | err (e : GenErr)
deriving DecidableEq, Repr

/-- A value of `random.random()`: the rational `num / den` (unnormalised).
Every Python float in `[0, 1)` is such a rational with `num < den`. -/
structure Frac where
  num : Nat
  den : Nat
deriving DecidableEq, Repr

/-- Comparison `a < b` of two fractions by cross multiplication. -/
def Frac.lt (a b : Frac) : Bool := Nat.blt (a.num * b.den) (b.num * a.den)

/-- The float literal 0.5 of the source. -/
def half : Frac := ⟨1, 2⟩

/-- The float literal 0.6 of the source. -/
def sixTenths : Frac := ⟨6, 10⟩

/-- The float literal 0.1 of the source. -/
def tenth : Frac := ⟨1, 10⟩

/-- Random oracle: the stream of `random.random()` values and the stream of
raw values backing `random.randrange`. -/
structure Oracle where
  floats : Nat → Frac
  ints : Nat → Nat

/-- Current position in the two oracle streams. -/
structure OPos where
  f : Nat
  i : Nat
deriving DecidableEq, Repr

/-- Draw the next `random.random()` value. -/
def nextFloat (o : Oracle) (p : OPos) : Frac × OPos := (o.floats p.f, ⟨p.f + 1, p.i⟩)

/-- Draw `random.randrange k`: the next raw stream value reduced modulo `k`
(every value of `[0, k)` is reachable; `k` is never `0` at the call sites). -/
def nextInt (o : Oracle) (p : OPos) (k : Nat) : Nat × OPos := (o.ints p.i % k, ⟨p.f, p.i + 1⟩)

/-- The index `int((rd.random()**exp) * len(lst))` computed by `choose`
(src 359).  For `u = num/den ≥ 0` the truncation `int` is exactly natural
division: `int((num/den)^e * n) = num^e * n / den^e`. -/
def chooseIdx (u : Frac) (e n : Nat) : Nat := u.num ^ e * n / u.den ^ e

/-- `choose` (src 349-360): weighted random pick; `lst[index]` raises
`IndexError` when the index is out of bounds (with `0 ≤ u < 1` this happens
exactly for an empty list). -/
def choose {α : Type} (lst : List α) (u : Frac) (e : Nat) : Res α :=
  match lst[chooseIdx u e lst.length]? with
  | some x => .ok x
  | none => .err .indexError

/-- Python substring test `a in b` on strings. -/
def isSubstrB (a : Str) : Str → Bool
  | [] => a == ([] : Str)
  | c :: bt => a.isPrefixOf (c :: bt) || isSubstrB a bt

/-- A Python dict with string keys and string values, insertion ordered. -/
abbrev OTable := List (Str × Str)

/-- `d[k] = v` on a dict: overwrite in place or append a new key. -/
def tableSet (t : OTable) (k v : Str) : OTable :=
  match t with
  | [] => [(k, v)]
  | (k1, v1) :: rest => if k1 = k then (k1, v) :: rest else (k1, v1) :: tableSet rest k v

/-- `d.update(ov)` on a dict. -/
def tableUpdate (t ov : OTable) : OTable := ov.foldl (fun acc kv => tableSet acc kv.1 kv.2) t

/-- `ORTHO_DEFAULT` (src 73-88). -/
def ORTHO_DEFAULT : OTable :=
  [("ʃ".data, "sh".data), ("ʒ".data, "zh".data), ("ʧ".data, "ch".data),
   ("ʤ".data, "j".data), ("ŋ".data, "ng".data), ("j".data, "y".data),
   ("x".data, "kh".data), ("ɣ".data, "gh".data), ("ʔ".data, "‘".data),
   ("A".data, "á".data), ("E".data, "é".data), ("I".data, "í".data),
   ("O".data, "ó".data), ("U".data, "ú".data)]

/-- `CON_ORTHO` (src 90-119). -/
def CON_ORTHO : List OTable :=
  [[("default".data, "None".data)],
   [("ʃ".data, "š".data), ("ʒ".data, "ž".data), ("ʧ".data, "č".data),
    ("ʤ".data, "ǧ".data), ("j".data, "j".data)],
   [("ʃ".data, "sch".data), ("ʒ".data, "zh".data), ("ʧ".data, "tsch".data),
    ("ʤ".data, "dz".data), ("j".data, "j".data), ("x".data, "ch".data)],
   [("ʃ".data, "ch".data), ("ʒ".data, "j".data), ("ʧ".data, "tch".data),
    ("ʤ".data, "dj".data), ("x".data, "kh".data)],
   [("ʃ".data, "x".data), ("ʧ".data, "q".data), ("ʤ".data, "j".data)]]

/-- `VOW_ORTHO` (src 121-151). -/
def VOW_ORTHO : List OTable :=
  [[("default".data, "None".data)],
   [("A".data, "ä".data), ("E".data, "ë".data), ("I".data, "ï".data),
    ("O".data, "ö".data), ("U".data, "ü".data)],
   [("A".data, "au".data), ("E".data, "ei".data), ("I".data, "ie".data),
    ("O".data, "ou".data), ("U".data, "oo".data)],
   [("A".data, "â".data), ("E".data, "ê".data), ("I".data, "y".data),
    ("O".data, "ô".data), ("U".data, "w".data)],
   [("A".data, "aa".data), ("E".data, "ee".data), ("I".data, "ii".data),
    ("O".data, "uu".data)]]

/-- `Orthography.__init__` (src 154-168).  `self.ortho` aliases the class
attribute `ortho = ORTHO_DEFAULT`, i.e. the module-level dict itself, and
`dict.update` mutates it in place; the shared table is therefore explicit
state mapped from its value before the construction to its value after. -/
def orthographyInit (shared : OTable) (c v : Option OTable) : OTable :=
  let t1 := match c with
    | none => shared
    | some ov => tableUpdate shared ov
  match v with
  | none => t1
  | some ov => tableUpdate t1 ov

/-- `Orthography.__getitem__` / `.get` (src 170-171): reads the shared
table (instances hold no table of their own). -/
def orthographyGet (shared : OTable) (k : Str) : Option Str := List.lookup k shared

/-- Body of `BasicLanguage.transliterate` for a present orthography
(src 241-244): each character is mapped through `self.ortho.get(c, c)` and
the pieces are concatenated. -/
def translitTable (t : OTable) : Str → Str
  | [] => []
  | c :: rest => (List.lookup [c] t).getD [c] ++ translitTable t rest

/-- A restriction pattern (src 68): a literal substring pattern or the
regex `(.)\1` matching adjacent duplicate characters. -/
inductive Restr where
  | lit (p : Str)
  | rep
deriving DecidableEq, Repr

/-- `RESTRICTIONS` (src 68). -/
def RESTRICTIONS : List Restr :=
  [.lit "ss".data, .lit "ʃʃ".data, .lit "ʃs".data, .lit "sʃ".data,
   .lit "fs".data, .lit "fʃ".data, .lit "lr".data, .lit "rl".data, .rep]

/-- Adjacent duplicate characters (the regex `(.)\1`). -/
def hasAdjDup : Str → Bool
  | a :: b :: rest => a == b || hasAdjDup (b :: rest)
  | _ => false

/-- `re.search(r, syll)` for one restriction pattern (src 227-229). -/
def matchesRestr (r : Restr) (s : Str) : Bool :=
  match r with
  | .lit p => isSubstrB p s
  | .rep => hasAdjDup s

/-- Whether any configured restriction matches the raw syllable. -/
def violates (rs : List Restr) (s : Str) : Bool := rs.any fun r => matchesRestr r s

/-- The orthography data a `BasicLanguage` holds: the merged symbol table
and the joiner string. -/
structure OrthoInst where
  table : OTable
  joiner : Str
deriving DecidableEq, Repr

/-- The configuration fields of a `BasicLanguage` (src 186-205). -/
structure Lang where
  phonemes : List (Char × Str)
  ortho : Option OrthoInst
  syll : Str
  min_syll : Nat
  max_syll : Nat
  restricts : List Restr
  min_char : Nat
  max_char : Nat
deriving DecidableEq, Repr

/-- `BasicLanguage.__init__` (src 186-205): stores the configuration and
derives the name length bounds from the pattern length; it performs no
validation whatsoever. -/
def mkLang (phonemes : List (Char × Str)) (syll : Str) (ortho : Option OrthoInst)
    (min_syll max_syll : Nat) (restricts : List Restr) : Lang :=
  { phonemes := phonemes, ortho := ortho, syll := syll,
    min_syll := min_syll, max_syll := max_syll, restricts := restricts,
    min_char := if syll.length < 3 then syll.length + 1 else syll.length,
    max_char := if syll.length < 3 then syll.length * 4 else syll.length * 3 }

/-- The for-loop of `gen_syllable` (src 215-224) building the raw phone
list: `self.phonemes[spec]` raises `KeyError` for a role token absent from
the dict, and `choose` raises `IndexError` on an empty candidate set. -/
def buildPhones (L : Lang) (o : Oracle) : Str → OPos → Str → Res (Str × OPos)
  | [], p, acc => .ok (acc, p)
  | c :: rest, p, acc =>
    if c = '?' then
      let (u, p1) := nextFloat o p
      buildPhones L o rest p1 (if half.lt u then acc.dropLast else acc)
    else
      match List.lookup c L.phonemes with
      | none => .err (.keyError c)
      | some cands =>
        let (u, p1) := nextFloat o p
        match choose cands u 2 with
        | .err e => .err e
        | .ok ph => buildPhones L o rest p1 (acc ++ [ph])

/-- `BasicLanguage.transliterate` (src 233-244). -/
def transliterate (L : Lang) (s : Str) : Str :=
  match L.ortho with
  | none => s
  | some ob => translitTable ob.table s

/-- `BasicLanguage.gen_syllable` (src 207-231); the unbounded retry loop
carries explicit fuel. -/
def gen_syllable (L : Lang) (o : Oracle) : Nat → OPos → Res (Str × OPos)
  | 0, _ => .err .fuelOut
  | fuel + 1, p =>
    match buildPhones L o L.syll p [] with
    | .err e => .err e
    | .ok (raw, p1) =>
      if violates L.restricts raw then gen_syllable L o fuel p1
      else .ok (transliterate L raw, p1)

/-- A pool identifier: `None` or a string key such as `"city"`. -/
abbrev Key := Option Str

/-- A `collections.defaultdict(list)` / `defaultdict(set)` registry, as an
insertion-ordered association list. -/
abbrev Pools := List (Key × List Str)

/-- `d[k]` on a defaultdict (reading): the stored list, or `[]`. -/
def poolGet (ps : Pools) (k : Key) : List Str := (List.lookup k ps).getD []

/-- `d[k].append(s)` (or `d[k].add(s)`) on a defaultdict. -/
def poolApp (ps : Pools) (k : Key) (s : Str) : Pools :=
  match ps with
  | [] => [(k, [s])]
  | (k1, l) :: rest => if k1 = k then (k1, l ++ [s]) :: rest else (k1, l) :: poolApp rest k s

/-- The mutable registries of a `BasicLanguage` instance (src 196-198). -/
structure LState where
  morphemes : Pools
  words : Pools
  names : Pools
deriving DecidableEq, Repr

/-- The registries right after `__init__`: all empty. -/
def initState : LState := ⟨[], [], []⟩

/-- Python values as they appear in the membership tests
`new_morph not in self.morphemes.values()` (src 335) and
`new_word not in self.words.values()` (src 259): the left operand is a
`str`, the candidates are the dict values, which are `list`s. -/
inductive PyVal where
  | str (s : Str)
  | lst (l : List Str)
deriving DecidableEq

/-- Python `==` across these values: a `str` never equals a `list`. -/
def pyEq : PyVal → PyVal → Bool
  | .str a, .str b => a == b
  | .lst a, .lst b => a == b
  | .str _, .lst _ => false
  | .lst _, .str _ => false

/-- Python `x in xs`. -/
def pyMem (x : PyVal) (xs : List PyVal) : Bool := xs.any fun y => pyEq x y

/-- `d.values()` of a pool registry. -/
def dictValues (ps : Pools) : List PyVal := ps.map fun kv => .lst kv.2

/-- The `extras` of `get_morpheme` (src 326): 10 for the generic pool,
1 for a named pool. -/
def morphExtras (pool : Key) : Nat := if pool = none then 10 else 1

/-- The `extras` of `get_word` (src 252): 3 for the generic pool, 2 for a
named pool. -/
def wordExtras (pool : Key) : Nat := if pool = none then 3 else 2

/-- `BasicLanguage.get_morpheme` (src 306-339). -/
def get_morpheme (L : Lang) (o : Oracle) (pool : Key) :
    Nat → LState → OPos → Res (Str × LState × OPos)
  | 0, _, _ => .err .fuelOut
  | fuel + 1, st, p =>
    let ml := poolGet st.morphemes pool
    let (n, p1) := nextInt o p (ml.length + morphExtras pool)
    if n < ml.length then
      .ok (ml.getD n [], st, p1)
    else
      match gen_syllable L o (fuel + 1) p1 with
      | .err e => .err e
      | .ok (nm, p2) =>
        if pyMem (.str nm) (dictValues st.morphemes) then
          get_morpheme L o pool fuel st p2
        else
          .ok (nm, { st with morphemes := poolApp st.morphemes pool nm }, p2)

/-- The list comprehension of `gen_word` (src 248): draw `k` morphemes in
order and concatenate them. -/
def gen_word_aux (L : Lang) (o : Oracle) (pool : Key) (fuel : Nat) :
    Nat → LState → OPos → Res (Str × LState × OPos)
  | 0, st, p => .ok ([], st, p)
  | k + 1, st, p =>
    match get_morpheme L o pool fuel st p with
    | .err e => .err e
    | .ok (m, st1, p1) =>
      match gen_word_aux L o pool fuel k st1 p1 with
      | .err e => .err e
      | .ok (rest, st2, p2) => .ok (m ++ rest, st2, p2)

/-- `BasicLanguage.gen_word` (src 246-248): joins one morpheme per element
of `range(min_syll, max_syll + 1)`, i.e. exactly `max_syll + 1 - min_syll`
morphemes. -/
def gen_word (L : Lang) (o : Oracle) (pool : Key) (fuel : Nat) (st : LState) (p : OPos) :
    Res (Str × LState × OPos) :=
  gen_word_aux L o pool fuel (L.max_syll + 1 - L.min_syll) st p

/-- `BasicLanguage.get_word` (src 250-263). -/
def get_word (L : Lang) (o : Oracle) (pool : Key) :
    Nat → LState → OPos → Res (Str × LState × OPos)
  | 0, _, _ => .err .fuelOut
  | fuel + 1, st, p =>
    let wl := poolGet st.words pool
    let (n, p1) := nextInt o p (wl.length + wordExtras pool)
    if n < wl.length then
      .ok (wl.getD n [], st, p1)
    else
      match gen_word L o pool (fuel + 1) st p1 with
      | .err e => .err e
      | .ok (w, st1, p2) =>
        if pyMem (.str w) (dictValues st1.words) then
          get_word L o pool fuel st1 p2
        else
          .ok (w, { st1 with words := poolApp st1.words pool w }, p2)

/-- Python `str.capitalize()`: first character upper-cased, the rest
lower-cased. -/
def capitalizeStr : Str → Str
  | [] => []
  | c :: rest => c.toUpper :: rest.map Char.toLower

/-- `self.ortho.joiner` (src 285-290): `AttributeError` when `ortho` is
`None`. -/
def getJoiner (L : Lang) : Res Str :=
  match L.ortho with
  | none => .err .attrError
  | some ob => .ok ob.joiner

/-- `joiner.join(parts)`. -/
def joinParts (j : Str) (parts : List Str) : Str := List.intercalate j parts

/-- `BasicLanguage.check_unique` (src 298-304): the candidate is compared
with every stored name of every pool, in both substring directions. -/
def check_unique (names : Pools) (nm : Str) : Bool :=
  names.all fun kv => kv.2.all fun other => !(isSubstrB nm other) && !(isSubstrB other nm)

/-- Tail of one `gen_name` loop iteration (src 289-292): the optional
definite marker, then the length filter.  Returns `none` for a candidate
rejected by the length filter. -/
def finish_candidate (L : Lang) (o : Oracle) (nm defv : Str) (st : LState) (p : OPos) :
    Res (Option Str × LState × OPos) :=
  let (u5, p1) := nextFloat o p
  if u5.lt tenth then
    match getJoiner L with
    | .err e => .err e
    | .ok j =>
      let nm2 := joinParts j [defv, nm]
      .ok (if L.min_char ≤ nm2.length ∧ nm2.length ≤ L.max_char * 2 then some nm2 else none, st, p1)
  else
    .ok (if L.min_char ≤ nm.length ∧ nm.length ≤ L.max_char * 2 then some nm else none, st, p1)

/-- One iteration of the `gen_name` loop up to the uniqueness check
(src 269-292): build a candidate name, or `none` when the iteration hit a
`continue` (identical word parts, or the length filter). -/
def name_candidate (L : Lang) (o : Oracle) (pool : Key) (gen defv : Str) (fuel : Nat)
    (st : LState) (p : OPos) : Res (Option Str × LState × OPos) :=
  let (u1, p1) := nextFloat o p
  if u1.lt half then
    match get_word L o pool fuel st p1 with
    | .err e => .err e
    | .ok (w, st1, p2) => finish_candidate L o (capitalizeStr w) defv st1 p2
  else
    let (u2, p2) := nextFloat o p1
    match get_word L o (if u2.lt sixTenths then pool else none) fuel st p2 with
    | .err e => .err e
    | .ok (w1, st1, p3) =>
      let (u3, p4) := nextFloat o p3
      match get_word L o (if u3.lt sixTenths then pool else none) fuel st1 p4 with
      | .err e => .err e
      | .ok (w2, st2, p5) =>
        let c1 := capitalizeStr w1
        let c2 := capitalizeStr w2
        if c1 = c2 then .ok (none, st2, p5)
        else
          let (u4, p6) := nextFloat o p5
          match getJoiner L with
          | .err e => .err e
          | .ok j =>
            if u4.lt half then finish_candidate L o (joinParts j [c1, c2]) defv st2 p6
            else finish_candidate L o (joinParts j [c1, gen, c2]) defv st2 p6

/-- The `while True:` loop of `gen_name` (src 269-296): candidates are
retried until one passes the length filter and `check_unique`; the
accepted name is added to `names[pool]`. -/
def gen_name_loop (L : Lang) (o : Oracle) (pool : Key) (gen defv : Str) :
    Nat → LState → OPos → Res (Str × LState × OPos)
  | 0, _, _ => .err .fuelOut
  | fuel + 1, st, p =>
    match name_candidate L o pool gen defv (fuel + 1) st p with
    | .err e => .err e
    | .ok (none, st1, p1) => gen_name_loop L o pool gen defv fuel st1 p1
    | .ok (some nm, st1, p1) =>
      if check_unique st1.names nm then
        .ok (nm, { st1 with names := poolApp st1.names pool nm }, p1)
      else
        gen_name_loop L o pool gen defv fuel st1 p1

/-- `BasicLanguage.gen_name` (src 265-296). -/
def gen_name (L : Lang) (o : Oracle) (pool : Key) (fuel : Nat) (st : LState) (p : OPos) :
    Res (Str × LState × OPos) :=
  match get_morpheme L o (some "of".data) fuel st p with
  | .err e => .err e
  | .ok (gen, st1, p1) =>
    match get_morpheme L o (some "the".data) fuel st1 p1 with
    | .err e => .err e
    | .ok (defv, st2, p2) => gen_name_loop L o pool gen defv fuel st2 p2

/-- A sequence of `gen_name` calls on one language instance. -/
def runGenNames (L : Lang) (o : Oracle) (fuel : Nat) :
    List Key → LState → OPos → Res (LState × OPos)
  | [], st, p => .ok (st, p)
  | k :: ks, st, p =>
    match gen_name L o k fuel st p with
    | .err e => .err e
    | .ok (_, st1, p1) => runGenNames L o fuel ks st1 p1

/-- All names stored in the registry, across all pools. -/
def allNames (ps : Pools) : List Str := (ps.map Prod.snd).flatten

/-- Two names that are substring-free of one another. -/
def mutFree (a b : Str) : Bool := !(isSubstrB a b) && !(isSubstrB b a)

/-- The global invariant of claim C1: the stored names are pairwise
substring-free across all pools. -/
def NamesFree (ps : Pools) : Prop := (allNames ps).Pairwise fun a b => mutFree a b = true

/-- A concrete deterministic configuration: pattern `CVC` over singleton
phoneme sets, so every generated syllable is `tat`. -/
def tinyLang : Lang := mkLang [('C', "t".data), ('V', "a".data)] "CVC".data none 1 1 RESTRICTIONS

/-- `tinyLang` with `min_syll = max_syll = 2`. -/
def tiny2Lang : Lang := mkLang [('C', "t".data), ('V', "a".data)] "CVC".data none 2 2 RESTRICTIONS

/-- A concrete oracle: every `random.random()` is 1/4, every raw
`randrange` value is 0. -/
def oracleA : Oracle := ⟨fun _ => ⟨1, 4⟩, fun _ => 0⟩

/-- The merged table of the first consonant overlay and the first vowel
overlay (both are the placeholder `{'default': 'None'}`). -/
def mergedDefault : OTable :=
  orthographyInit ORTHO_DEFAULT (some (CON_ORTHO.getD 0 [])) (some (VOW_ORTHO.getD 0 []))

/- ======================== theorems ======================== -/

theorem mutFree_comm (a b : Str) : mutFree a b = mutFree b a := by
  simp [mutFree, Bool.and_comm]

/-- Claim C9 — `choose` on a non-empty list with `u = num/den ∈ [0, 1)` and a
positive exponent computes the index `int(u^e * N)`, which is always within
`[0, N-1]`, and returns the list element at that index; on the empty list it
raises `IndexError`. -/
theorem c9_choose_in_bounds {α : Type} (lst : List α) (u : Frac) (e : Nat)
    (hne : lst ≠ []) (hu : u.num < u.den) (he : e ≠ 0) :
    chooseIdx u e lst.length < lst.length ∧
      (∃ x, lst[chooseIdx u e lst.length]? = some x ∧ choose lst u e = .ok x) ∧
      choose ([] : List α) u e = .err .indexError := by
  have hn : 0 < lst.length := List.length_pos.mpr hne
  have hden : 0 < u.den := Nat.lt_of_le_of_lt (Nat.zero_le _) hu
  have hde : 0 < u.den ^ e := Nat.pos_pow_of_pos e hden
  have hpow : u.num ^ e < u.den ^ e := Nat.pow_lt_pow_left hu he
  have hidx : chooseIdx u e lst.length < lst.length := by
    rw [chooseIdx, Nat.div_lt_iff_lt_mul hde]
    calc u.num ^ e * lst.length < u.den ^ e * lst.length :=
          (Nat.mul_lt_mul_right hn).mpr hpow
      _ = lst.length * u.den ^ e := Nat.mul_comm _ _
  refine ⟨hidx, ⟨lst[chooseIdx u e lst.length], ?_, ?_⟩, ?_⟩
  · exact List.getElem?_eq_getElem hidx
  · rw [choose, List.getElem?_eq_getElem hidx]
  · rw [choose]
    have h0 : chooseIdx u e ([] : List α).length = 0 := by
      simp [chooseIdx]
    rw [h0]
    rfl

theorem c9_witness :
    chooseIdx ⟨1, 2⟩ 2 ([10, 20, 30] : List Nat).length < ([10, 20, 30] : List Nat).length ∧
      (∃ x, ([10, 20, 30] : List Nat)[chooseIdx ⟨1, 2⟩ 2 ([10, 20, 30] : List Nat).length]? = some x ∧
        choose ([10, 20, 30] : List Nat) ⟨1, 2⟩ 2 = .ok x) ∧
      choose ([] : List Nat) ⟨1, 2⟩ 2 = .err .indexError :=
  c9_choose_in_bounds [10, 20, 30] ⟨1, 2⟩ 2 (by decide) (by decide) (by decide)

/-- Claim C8, counterexample — transliteration through the default table
merged with the first consonant/vowel overlays is not idempotent: the table
maps `ʤ ↦ j` and also `j ↦ y`, so a second pass rewrites the display output
of the first: `transliterate("ʤ") = "j"` but
`transliterate(transliterate("ʤ")) = "y"`. -/
theorem c8_counterexample :
    translitTable mergedDefault (translitTable mergedDefault "ʤ".data) ≠
      translitTable mergedDefault "ʤ".data := by
  decide

theorem translit_id (t : OTable) (w : Str) (h : ∀ c ∈ w, List.lookup [c] t = none) :
    translitTable t w = w := by
  induction w with
  | nil => rfl
  | cons c rest ih =>
    have hc := h c (List.mem_cons_self c rest)
    have hr := ih fun d hd => h d (List.mem_cons_of_mem c hd)
    simp [translitTable, hc, hr]

/-- Claim C8, amended — transliteration is idempotent on a string whose
display output contains no character that is itself a key of the table:
each character of the output is then mapped to itself by the second pass. -/
theorem c8_amended (t : OTable) (s : Str)
    (h : ∀ c ∈ translitTable t s, List.lookup [c] t = none) :
    translitTable t (translitTable t s) = translitTable t s :=
  translit_id t (translitTable t s) h

theorem c8_witness :
    (∀ c ∈ translitTable mergedDefault "ta".data, List.lookup [c] mergedDefault = none) ∧
      translitTable mergedDefault (translitTable mergedDefault "ta".data) =
        translitTable mergedDefault "ta".data :=
  ⟨by decide, c8_amended mergedDefault "ta".data (by decide)⟩

/-- Claim C10 — `Orthography.__init__` mutates the shared module-level
default table in place: the class attribute aliases `ORTHO_DEFAULT`, so in
the embedding the table is shared state threaded through every
construction, and a lookup through *any* instance reads that shared state.
After a first construction with overlay `CON_ORTHO[1]` (`ʃ ↦ š`) the shared
table maps `ʃ` to `š`; after a second construction with overlay
`CON_ORTHO[3]` (`ʃ ↦ ch`) the same shared table — and hence a lookup
through the previously constructed instance — yields `ch`, the second
instance's merged value. -/
theorem c10_shared_table_mutation :
    orthographyGet (orthographyInit ORTHO_DEFAULT (some (CON_ORTHO.getD 1 []))
        (some (VOW_ORTHO.getD 1 []))) "ʃ".data = some "š".data ∧
      orthographyGet (orthographyInit (orthographyInit ORTHO_DEFAULT (some (CON_ORTHO.getD 1 []))
        (some (VOW_ORTHO.getD 1 []))) (some (CON_ORTHO.getD 3 []))
        (some (VOW_ORTHO.getD 2 []))) "ʃ".data = some "ch".data ∧
      ("ch".data : Str) ≠ "š".data := by
  refine ⟨by decide, by decide, by decide⟩

/-- Claim C4, counterexample — a configuration whose pattern references the
role `C` while the phoneme dict only maps `V` is accepted by
`BasicLanguage.__init__` (which performs no validation) and the failure
surfaces only inside `gen_syllable`, as a `KeyError`, i.e. mid-generation
rather than at language-construction time. -/
theorem c4_counterexample :
    gen_syllable (mkLang [('V', "a".data)] "CV".data none 1 1 RESTRICTIONS) oracleA 3 ⟨0, 0⟩ =
      .err (.keyError 'C') := by
  decide

/-- Claim C4, amended — `BasicLanguage.__init__` performs no validation, so
neither failure kind is reported at construction time: a pattern whose
first token is a role `c` missing from the phoneme dict makes
`gen_syllable` raise `KeyError` mid-generation; a role mapped to an empty
candidate set makes it raise `IndexError` mid-generation; and inconsistent
bounds `max_syll < min_syll` are never reported at all — `gen_word` then
silently returns the empty word. -/
theorem c4_amended (phs : List (Char × Str)) (c : Char) (rest : Str) (ortho : Option OrthoInst)
    (mn mx : Nat) (rs : List Restr) (o : Oracle) (fuel : Nat) (st : LState) (p : OPos)
    (hc : c ≠ '?') :
    (List.lookup c phs = none →
      gen_syllable (mkLang phs (c :: rest) ortho mn mx rs) o (fuel + 1) p = .err (.keyError c)) ∧
      (List.lookup c phs = some [] →
        gen_syllable (mkLang phs (c :: rest) ortho mn mx rs) o (fuel + 1) p = .err .indexError) ∧
      (mx < mn →
        gen_word (mkLang phs (c :: rest) ortho mn mx rs) o none fuel st p = .ok ([], st, p)) := by
  have hsy : (mkLang phs (c :: rest) ortho mn mx rs).syll = c :: rest := rfl
  have hph : (mkLang phs (c :: rest) ortho mn mx rs).phonemes = phs := rfl
  refine ⟨?_, ?_, ?_⟩
  · intro hmiss
    rw [gen_syllable, hsy, buildPhones, if_neg hc, hph, hmiss]
  · intro hempty
    have hch : ∀ u : Frac, choose ([] : List Char) u 2 = .err .indexError := by
      intro u
      rw [choose]
      have hz : chooseIdx u 2 ([] : List Char).length = 0 := by simp [chooseIdx]
      rw [hz]
      rfl
    rw [gen_syllable, hsy, buildPhones, if_neg hc, hph, hempty]
    simp [nextFloat, hch]
  · intro hlt
    have hz : (mkLang phs (c :: rest) ortho mn mx rs).max_syll + 1 -
        (mkLang phs (c :: rest) ortho mn mx rs).min_syll = 0 := by
      simp only [mkLang]
      omega
    rw [gen_word, hz, gen_word_aux]

theorem c4_amended_witness :
    gen_syllable (mkLang [('V', "a".data)] ('C' :: "V".data) none 1 1 RESTRICTIONS) oracleA 3 ⟨0, 0⟩ =
      .err (.keyError 'C') ∧
      gen_syllable (mkLang [('C', ([] : Str)), ('V', "a".data)] ('C' :: "V".data) none 1 1
        RESTRICTIONS) oracleA 3 ⟨0, 0⟩ = .err .indexError ∧
      gen_word (mkLang [('V', "a".data)] ('C' :: "V".data) none 2 1 RESTRICTIONS) oracleA none 2
        initState ⟨0, 0⟩ = .ok ([], initState, ⟨0, 0⟩) :=
  ⟨(c4_amended [('V', "a".data)] 'C' "V".data none 1 1 RESTRICTIONS oracleA 2 initState
      ⟨0, 0⟩ (by decide)).1 (by decide),
   (c4_amended [('C', ([] : Str)), ('V', "a".data)] 'C' "V".data none 1 1 RESTRICTIONS oracleA 2
      initState ⟨0, 0⟩ (by decide)).2.1 (by decide),
   (c4_amended [('V', "a".data)] 'C' "V".data none 2 1 RESTRICTIONS oracleA 2 initState
      ⟨0, 0⟩ (by decide)).2.2 (by decide)⟩

/-- Claim C2, code bug — the collision check of `get_morpheme` (src 335),
`new_morph not in self.morphemes.values()`, compares a `str` against the
dict *values*, which are `list`s, so it is vacuously true and never fires.
Concretely: a first call stores the syllable `tat` in pool `city`; a second
call for pool `land` regenerates the same syllable `tat` and appends it
anyway, so the string `tat` is stored under two pool identifiers
simultaneously. -/
theorem c2_cross_pool_morpheme_duplicate :
    get_morpheme tinyLang oracleA (some "city".data) 2 initState ⟨0, 0⟩ =
        .ok ("tat".data, ⟨[(some "city".data, ["tat".data])], [], []⟩, ⟨3, 1⟩) ∧
      get_morpheme tinyLang oracleA (some "land".data) 2
          ⟨[(some "city".data, ["tat".data])], [], []⟩ ⟨3, 1⟩ =
        .ok ("tat".data,
          ⟨[(some "city".data, ["tat".data]), (some "land".data, ["tat".data])], [], []⟩, ⟨6, 2⟩) ∧
      "tat".data ∈ poolGet [(some "city".data, ["tat".data]), (some "land".data, ["tat".data])]
        (some "city".data) ∧
      "tat".data ∈ poolGet [(some "city".data, ["tat".data]), (some "land".data, ["tat".data])]
        (some "land".data) := by
  refine ⟨by decide, by decide, by decide, by decide⟩

/-- Claim C3, code bug — the duplicate check of `get_word` (src 259),
`new_word not in self.words.values()`, compares a `str` against the dict
values, which are `list`s, so it is vacuously true and never fires.
Concretely: a first call stores the word `tat` in pool `city`; a second
call for pool `land` regenerates the identical word `tat` and appends it
anyway, so two character-identical words are stored in the same run. -/
theorem c3_duplicate_word_stored :
    get_word tinyLang oracleA (some "city".data) 2 initState ⟨0, 0⟩ =
        .ok ("tat".data,
          ⟨[(some "city".data, ["tat".data])], [(some "city".data, ["tat".data])], []⟩, ⟨3, 2⟩) ∧
      get_word tinyLang oracleA (some "land".data) 2
          ⟨[(some "city".data, ["tat".data])], [(some "city".data, ["tat".data])], []⟩ ⟨3, 2⟩ =
        .ok ("tat".data,
          ⟨[(some "city".data, ["tat".data]), (some "land".data, ["tat".data])],
           [(some "city".data, ["tat".data]), (some "land".data, ["tat".data])], []⟩, ⟨6, 4⟩) ∧
      "tat".data ∈ poolGet [(some "city".data, ["tat".data]), (some "land".data, ["tat".data])]
        (some "city".data) ∧
      "tat".data ∈ poolGet [(some "city".data, ["tat".data]), (some "land".data, ["tat".data])]
        (some "land".data) := by
  refine ⟨by decide, by decide, by decide, by decide⟩

/-- Claim C5, code bug — `gen_word` iterates over
`range(min_syll, max_syll + 1)` and therefore always concatenates exactly
`max_syll + 1 - min_syll` morphemes.  With `min_syll = max_syll = 2` (a
valid configuration per the spec: `min ≥ 1`, `max ≥ min`) a word consists
of a single morpheme — here the 3-character syllable `tat` — although the
claim requires between 2 and 2 morphemes. -/
theorem c5_word_syllable_count_bug :
    gen_word tiny2Lang oracleA none 2 initState ⟨0, 0⟩ =
        .ok ("tat".data, ⟨[(none, ["tat".data])], [], []⟩, ⟨3, 1⟩) ∧
      tiny2Lang.max_syll + 1 - tiny2Lang.min_syll = 1 ∧
      tiny2Lang.min_syll = 2 ∧ ("tat".data : Str).length = 3 := by
  refine ⟨by decide, by decide, by decide, by decide⟩

/-- Claim C7 — every syllable returned by `gen_syllable` is the
transliteration of a raw phone sequence that matches no configured
restriction pattern: a candidate matching any restriction is discarded
(before transliteration) and generation restarts. -/
theorem c7_syllable_respects_restricts (L : Lang) (o : Oracle) :
    ∀ fuel p s p1, gen_syllable L o fuel p = .ok (s, p1) →
      ∃ raw q, buildPhones L o L.syll q [] = .ok (raw, p1) ∧
        (∀ r ∈ L.restricts, matchesRestr r raw = false) ∧ s = transliterate L raw := by
  intro fuel
  induction fuel with
  | zero =>
    intro p s p1 h
    exact absurd h (by simp [gen_syllable])
  | succ n ih =>
    intro p s p1 h
    rw [gen_syllable] at h
    split at h
    next => cases h
    next raw p2 heq =>
      split at h
      · exact ih _ _ _ h
      next hv =>
        have hv2 : violates L.restricts raw = false := by
          simpa using hv
        have hmatch : ∀ r ∈ L.restricts, matchesRestr r raw = false := by
          simpa [violates] using hv2
        cases h
        exact ⟨raw, p, heq, hmatch, rfl⟩

theorem c7_witness :
    gen_syllable tinyLang oracleA 2 ⟨0, 0⟩ = .ok ("tat".data, ⟨3, 0⟩) ∧
      ∃ raw q, buildPhones tinyLang oracleA tinyLang.syll q [] = .ok (raw, ⟨3, 0⟩) ∧
        (∀ r ∈ tinyLang.restricts, matchesRestr r raw = false) ∧
        "tat".data = transliterate tinyLang raw :=
  ⟨by decide, c7_syllable_respects_restricts tinyLang oracleA 2 ⟨0, 0⟩ "tat".data ⟨3, 0⟩ (by decide)⟩

theorem allNames_poolApp (ps : Pools) (k : Key) (s : Str) :
    (allNames (poolApp ps k s)).Perm (allNames ps ++ [s]) := by
  induction ps with
  | nil => simp [poolApp, allNames]
  | cons kv rest ih =>
    obtain ⟨k1, l⟩ := kv
    rw [poolApp]
    by_cases hk : k1 = k
    · rw [if_pos hk]
      simp only [allNames, List.map_cons, List.flatten_cons, List.append_assoc]
      exact List.Perm.append_left l List.perm_append_comm
    · rw [if_neg hk]
      simp only [allNames, List.map_cons, List.flatten_cons, List.append_assoc] at ih ⊢
      exact List.Perm.append_left l ih

theorem check_unique_spec (ps : Pools) (nm : Str) (h : check_unique ps nm = true) :
    ∀ x ∈ allNames ps, mutFree x nm = true := by
  intro x hx
  rw [allNames, List.mem_flatten] at hx
  obtain ⟨l, hl, hxl⟩ := hx
  rw [List.mem_map] at hl
  obtain ⟨kv, hkv, rfl⟩ := hl
  simp only [check_unique, List.all_eq_true, Bool.and_eq_true, Bool.not_eq_true'] at h
  have h3 := h kv hkv x hxl
  simp only [mutFree, Bool.and_eq_true, Bool.not_eq_true']
  exact ⟨h3.2, h3.1⟩

theorem NamesFree_poolApp (ps : Pools) (k : Key) (nm : Str)
    (hfree : NamesFree ps) (hu : check_unique ps nm = true) :
    NamesFree (poolApp ps k nm) := by
  have hperm := allNames_poolApp ps k nm
  rw [NamesFree]
  rw [hperm.pairwise_iff fun {a b} h => by rw [mutFree_comm]; exact h]
  rw [List.pairwise_append]
  refine ⟨hfree, by simp, ?_⟩
  intro x hx y hy
  rw [List.mem_singleton] at hy
  rw [hy]
  exact check_unique_spec ps nm hu x hx

theorem get_morpheme_pools (L : Lang) (o : Oracle) (pool : Key) :
    ∀ fuel st p m st1 p1, get_morpheme L o pool fuel st p = .ok (m, st1, p1) →
      st1.names = st.names ∧ st1.words = st.words := by
  intro fuel
  induction fuel with
  | zero =>
    intro st p m st1 p1 h
    exact absurd h (by simp [get_morpheme])
  | succ n ih =>
    intro st p m st1 p1 h
    simp only [get_morpheme, nextInt] at h
    split at h
    · cases h
      exact ⟨rfl, rfl⟩
    · split at h
      next => cases h
      next nm p2 heq =>
        split at h
        · exact ih _ _ _ _ _ h
        · cases h
          exact ⟨rfl, rfl⟩

theorem gen_word_aux_pools (L : Lang) (o : Oracle) (pool : Key) (fuel : Nat) :
    ∀ k st p w st1 p1, gen_word_aux L o pool fuel k st p = .ok (w, st1, p1) →
      st1.names = st.names ∧ st1.words = st.words := by
  intro k
  induction k with
  | zero =>
    intro st p w st1 p1 h
    rw [gen_word_aux] at h
    cases h
    exact ⟨rfl, rfl⟩
  | succ n ih =>
    intro st p w st1 p1 h
    rw [gen_word_aux] at h
    split at h
    next => cases h
    next =>
      rename_i heq1
      split at h
      next => cases h
      next =>
        rename_i heq2
        cases h
        exact ⟨(ih _ _ _ _ _ heq2).1.trans (get_morpheme_pools L o pool fuel _ _ _ _ _ heq1).1,
               (ih _ _ _ _ _ heq2).2.trans (get_morpheme_pools L o pool fuel _ _ _ _ _ heq1).2⟩

theorem gen_word_pools (L : Lang) (o : Oracle) (pool : Key) (fuel : Nat) (st : LState) (p : OPos)
    (w : Str) (st1 : LState) (p1 : OPos) (h : gen_word L o pool fuel st p = .ok (w, st1, p1)) :
    st1.names = st.names ∧ st1.words = st.words := by
  rw [gen_word] at h
  exact gen_word_aux_pools L o pool fuel _ st p w st1 p1 h

theorem get_word_names (L : Lang) (o : Oracle) (pool : Key) :
    ∀ fuel st p w st1 p1, get_word L o pool fuel st p = .ok (w, st1, p1) →
      st1.names = st.names := by
  intro fuel
  induction fuel with
  | zero =>
    intro st p w st1 p1 h
    exact absurd h (by simp [get_word])
  | succ n ih =>
    intro st p w st1 p1 h
    simp only [get_word, nextInt] at h
    split at h
    · cases h
      rfl
    · split at h
      next => cases h
      next =>
        rename_i heq
        split at h
        · exact (ih _ _ _ _ _ h).trans (gen_word_pools L o pool (n + 1) _ _ _ _ _ heq).1
        · cases h
          exact (gen_word_pools L o pool (n + 1) _ _ _ _ _ heq).1

theorem finish_candidate_spec (L : Lang) (o : Oracle) (nm0 defv : Str) (st : LState) (p : OPos)
    (r : Option Str) (st1 : LState) (p1 : OPos)
    (h : finish_candidate L o nm0 defv st p = .ok (r, st1, p1)) :
    st1 = st ∧ ∀ nm, r = some nm → L.min_char ≤ nm.length ∧ nm.length ≤ L.max_char * 2 := by
  simp only [finish_candidate, nextFloat] at h
  split at h
  · split at h
    next => cases h
    next j heq =>
      cases h
      refine ⟨rfl, ?_⟩
      intro nm hr
      split at hr
      next hb => cases hr; exact hb
      next hb => cases hr
  · cases h
    refine ⟨rfl, ?_⟩
    intro nm hr
    split at hr
    next hb => cases hr; exact hb
    next hb => cases hr

theorem name_candidate_spec (L : Lang) (o : Oracle) (pool : Key) (gen defv : Str) (fuel : Nat)
    (st : LState) (p : OPos) (r : Option Str) (st1 : LState) (p1 : OPos)
    (h : name_candidate L o pool gen defv fuel st p = .ok (r, st1, p1)) :
    st1.names = st.names ∧
      ∀ nm, r = some nm → L.min_char ≤ nm.length ∧ nm.length ≤ L.max_char * 2 := by
  simp only [name_candidate, nextFloat] at h
  split at h
  · split at h
    next => cases h
    next w stA pA heq =>
      have hA := get_word_names L o pool fuel st _ w stA pA heq
      have hB := finish_candidate_spec L o _ defv stA _ r st1 p1 h
      exact ⟨hB.1 ▸ hA, hB.2⟩
  · split at h
    next => cases h
    next w1 stA pA heq1 =>
      have hA := get_word_names L o _ fuel st _ w1 stA pA heq1
      split at h
      next => cases h
      next w2 stB pB heq2 =>
        have hB := get_word_names L o _ fuel stA _ w2 stB pB heq2
        split at h
        · cases h
          refine ⟨hB.trans hA, ?_⟩
          intro nm hr
          cases hr
        · split at h
          next => cases h
          next j heq3 =>
            split at h
            · have hC := finish_candidate_spec L o _ defv stB _ r st1 p1 h
              exact ⟨hC.1 ▸ (hB.trans hA), hC.2⟩
            · have hC := finish_candidate_spec L o _ defv stB _ r st1 p1 h
              exact ⟨hC.1 ▸ (hB.trans hA), hC.2⟩

theorem gen_name_loop_inv (L : Lang) (o : Oracle) (pool : Key) (gen defv : Str) :
    ∀ fuel st p nm st1 p1, gen_name_loop L o pool gen defv fuel st p = .ok (nm, st1, p1) →
      (L.min_char ≤ nm.length ∧ nm.length ≤ L.max_char * 2) ∧
        (NamesFree st.names → NamesFree st1.names) := by
  intro fuel
  induction fuel with
  | zero =>
    intro st p nm st1 p1 h
    exact absurd h (by simp [gen_name_loop])
  | succ n ih =>
    intro st p nm st1 p1 h
    rw [gen_name_loop] at h
    split at h
    next => cases h
    next =>
      rename_i heq
      have hA := name_candidate_spec L o pool gen defv (n + 1) _ _ _ _ _ heq
      have hB := ih _ _ _ _ _ h
      exact ⟨hB.1, fun hf => hB.2 (by rw [hA.1]; exact hf)⟩
    next =>
      rename_i heq
      have hA := name_candidate_spec L o pool gen defv (n + 1) _ _ _ _ _ heq
      split at h
      next hu =>
        cases h
        refine ⟨hA.2 _ rfl, fun hf => ?_⟩
        refine NamesFree_poolApp _ pool _ ?_ hu
        rw [hA.1]
        exact hf
      next hu =>
        have hB := ih _ _ _ _ _ h
        exact ⟨hB.1, fun hf => hB.2 (by rw [hA.1]; exact hf)⟩

theorem gen_name_inv (L : Lang) (o : Oracle) (pool : Key) (fuel : Nat) (st : LState) (p : OPos)
    (nm : Str) (st1 : LState) (p1 : OPos)
    (h : gen_name L o pool fuel st p = .ok (nm, st1, p1)) :
    (L.min_char ≤ nm.length ∧ nm.length ≤ L.max_char * 2) ∧
      (NamesFree st.names → NamesFree st1.names) := by
  rw [gen_name] at h
  split at h
  next => cases h
  next gen stA pA heq1 =>
    split at h
    next => cases h
    next defv stB pB heq2 =>
      have h1 := (get_morpheme_pools L o _ fuel st p gen stA pA heq1).1
      have h2 := (get_morpheme_pools L o _ fuel stA pA defv stB pB heq2).1
      have h3 := gen_name_loop_inv L o pool gen defv fuel stB pB nm st1 p1 h
      exact ⟨h3.1, fun hf => h3.2 (by rw [h2, h1]; exact hf)⟩

/-- Claim C6 — every name returned by `gen_name` has display length within
`[min_char, max_char * 2]` inclusive, where `min_char`/`max_char` are
derived by `__init__` from the configured pattern length: if the pattern
length is `< 3` then `min_char = length + 1` and `max_char = length * 4`,
otherwise `min_char = length` and `max_char = length * 3`. -/
theorem c6_gen_name_length_bounds (phs : List (Char × Str)) (syll : Str)
    (ortho : Option OrthoInst) (mn mx : Nat) (rs : List Restr) (o : Oracle) (pool : Key)
    (fuel : Nat) (st : LState) (p : OPos) (nm : Str) (st1 : LState) (p1 : OPos)
    (h : gen_name (mkLang phs syll ortho mn mx rs) o pool fuel st p = .ok (nm, st1, p1)) :
    (if syll.length < 3 then syll.length + 1 else syll.length) ≤ nm.length ∧
      nm.length ≤ (if syll.length < 3 then syll.length * 4 else syll.length * 3) * 2 :=
  (gen_name_inv (mkLang phs syll ortho mn mx rs) o pool fuel st p nm st1 p1 h).1

theorem c6_witness :
    gen_name (mkLang [('C', "t".data), ('V', "a".data)] "CVC".data none 1 1 RESTRICTIONS) oracleA
        (some "city".data) 3 initState ⟨0, 0⟩ =
      .ok ("Tat".data,
        ⟨[(some "of".data, ["tat".data]), (some "the".data, ["tat".data]),
          (some "city".data, ["tat".data])],
         [(some "city".data, ["tat".data])],
         [(some "city".data, ["Tat".data])]⟩, ⟨11, 4⟩) ∧
      ((if ("CVC".data : Str).length < 3 then ("CVC".data : Str).length + 1
          else ("CVC".data : Str).length) ≤ ("Tat".data : Str).length ∧
        ("Tat".data : Str).length ≤
          (if ("CVC".data : Str).length < 3 then ("CVC".data : Str).length * 4
            else ("CVC".data : Str).length * 3) * 2) :=
  ⟨by decide,
   c6_gen_name_length_bounds [('C', "t".data), ('V', "a".data)] "CVC".data none 1 1 RESTRICTIONS
     oracleA (some "city".data) 3 initState ⟨0, 0⟩ "Tat".data
     ⟨[(some "of".data, ["tat".data]), (some "the".data, ["tat".data]),
       (some "city".data, ["tat".data])],
      [(some "city".data, ["tat".data])],
      [(some "city".data, ["Tat".data])]⟩ ⟨11, 4⟩ (by decide)⟩

/-- Claim C1 — for every language instance and every sequence of `gen_name`
calls starting from the empty registries, the stored names are globally
substring-free across all pools: `check_unique` compares the candidate with
every stored name of every pool in both substring directions, and a name is
added to `names[pool]` only when that check passes, so the pairwise
substring-freedom invariant is preserved by every call. -/
theorem c1_names_globally_substring_free (L : Lang) (o : Oracle) (fuel : Nat) (calls : List Key)
    (st1 : LState) (p1 : OPos)
    (h : runGenNames L o fuel calls initState ⟨0, 0⟩ = .ok (st1, p1)) :
    NamesFree st1.names := by
  have aux : ∀ ks st p stF pF, NamesFree st.names →
      runGenNames L o fuel ks st p = .ok (stF, pF) → NamesFree stF.names := by
    intro ks
    induction ks with
    | nil =>
      intro st p stF pF hf h2
      rw [runGenNames] at h2
      cases h2
      exact hf
    | cons k ks ih =>
      intro st p stF pF hf h2
      rw [runGenNames] at h2
      split at h2
      next => cases h2
      next nm stA pA heq =>
        exact ih stA pA stF pF ((gen_name_inv L o k fuel st p nm stA pA heq).2 hf) h2
  exact aux calls initState ⟨0, 0⟩ st1 p1 (by simp [NamesFree, initState, allNames]) h

theorem c1_witness :
    runGenNames tinyLang oracleA 3 [some "city".data] initState ⟨0, 0⟩ =
        .ok (⟨[(some "of".data, ["tat".data]), (some "the".data, ["tat".data]),
               (some "city".data, ["tat".data])],
              [(some "city".data, ["tat".data])],
              [(some "city".data, ["Tat".data])]⟩, ⟨11, 4⟩) ∧
      NamesFree [(some "city".data, ["Tat".data])] :=
  ⟨by decide,
   c1_names_globally_substring_free tinyLang oracleA 3 [some "city".data]
     ⟨[(some "of".data, ["tat".data]), (some "the".data, ["tat".data]),
       (some "city".data, ["tat".data])],
      [(some "city".data, ["tat".data])],
      [(some "city".data, ["Tat".data])]⟩ ⟨11, 4⟩ (by decide)⟩

end NameGen
